import Mathlib

/-!
Verification of the tiered prompt-injection scanner (`scanner.py` and the
pattern catalog plumbing of `patterns.py`).

Strings are modelled as `List Char` (Python `str` is a sequence of code
points).  Bytes are modelled as `Nat` values below 256.  Regular-expression
matching is external to the scanner's own logic, so a compiled pattern is
modelled as its metadata together with an arbitrary Boolean test on the
lowercased text; everything else (the decode loop, the tier escalation, the
deduplication, the cache) is translated directly from the source.
-/

/-- A character counts as ASCII for `urllib.parse.unquote`'s run splitting
(the `[\x00-\x7f]` class). -/
def isAsciiChar (c : Char) : Bool := c.toNat ≤ 0x7f

/-- Concatenate a list of lists. -/
def concatAll : List (List α) → List α
  | [] => []
  | l :: ls => l ++ concatAll ls

/-- Model of Python `str.split(sep)` for a single-character separator:
`"".split` gives `[""]`, separators at the ends give empty pieces. -/
def splitOnChar (sep : Char) : List Char → List (List Char)
  | [] => [[]]
  | c :: rest =>
    let r := splitOnChar sep rest
    if c = sep then [] :: r
    else
      match r with
      | [] => [[c]]
      | h :: t => (c :: h) :: t

/-- Value of a hexadecimal digit, both cases (the `_hextobyte` table of
`urllib.parse`). -/
def hexDigitVal (c : Char) : Option Nat :=
  if '0' ≤ c ∧ c ≤ '9' then some (c.toNat - '0'.toNat)
  else if 'a' ≤ c ∧ c ≤ 'f' then some (c.toNat - 'a'.toNat + 10)
  else if 'A' ≤ c ∧ c ≤ 'F' then some (c.toNat - 'A'.toNat + 10)
  else none

/-- One piece following a `%` in `unquote_to_bytes`: if it starts with two
hex digits they become a byte, otherwise the `%` is kept literally. -/
def unquoteItem : List Char → List Nat
  | c1 :: c2 :: rest =>
    match hexDigitVal c1, hexDigitVal c2 with
    | some h, some lo => (16 * h + lo) :: rest.map Char.toNat
    | _, _ => '%'.toNat :: (c1 :: c2 :: rest).map Char.toNat
  | l => '%'.toNat :: l.map Char.toNat

/-- Model of `urllib.parse.unquote_to_bytes` on an ASCII-only piece:
split on `%`, turn each valid `%XX` into a byte, keep everything else. -/
def unquoteToBytes (s : List Char) : List Nat :=
  match splitOnChar '%' s with
  | [] => s.map Char.toNat
  | [_] => s.map Char.toNat
  | first :: items => first.map Char.toNat ++ concatAll (items.map unquoteItem)

/-- Is `b` a UTF-8 continuation byte (`0x80`–`0xBF`)? -/
def utf8Cont (b : Nat) : Bool := 0x80 ≤ b && b < 0xC0

/-- UTF-8 decoder over byte lists with CPython's error handling: on an
ill-formed sequence the maximal subpart is consumed and, when `emitRepl`
is set (`errors='replace'`), one U+FFFD is emitted; with `emitRepl` off
(`errors='ignore'`) the bytes are skipped silently.  `fuel` bounds the
recursion and is instantiated with the byte count. -/
def utf8DecodeAux (emitRepl : Bool) : Nat → List Nat → List Char
  | 0, _ => []
  | _, [] => []
  | fuel + 1, b :: rest =>
    let repl : List Char := if emitRepl then [Char.ofNat 0xFFFD] else []
    if b < 0x80 then Char.ofNat b :: utf8DecodeAux emitRepl fuel rest
    else if b < 0xC2 then repl ++ utf8DecodeAux emitRepl fuel rest
    else if b < 0xE0 then
      match rest with
      | b2 :: rest2 =>
        if utf8Cont b2 then
          Char.ofNat ((b - 0xC0) * 0x40 + (b2 - 0x80)) :: utf8DecodeAux emitRepl fuel rest2
        else repl ++ utf8DecodeAux emitRepl fuel rest
      | [] => repl
    else if b < 0xF0 then
      let lo2 := if b = 0xE0 then 0xA0 else 0x80
      let hi2 := if b = 0xED then 0xA0 else 0xC0
      match rest with
      | b2 :: rest2 =>
        if lo2 ≤ b2 ∧ b2 < hi2 then
          match rest2 with
          | b3 :: rest3 =>
            if utf8Cont b3 then
              Char.ofNat ((b - 0xE0) * 0x1000 + (b2 - 0x80) * 0x40 + (b3 - 0x80)) ::
                utf8DecodeAux emitRepl fuel rest3
            else repl ++ utf8DecodeAux emitRepl fuel rest2
          | [] => repl
        else repl ++ utf8DecodeAux emitRepl fuel rest
      | [] => repl
    else if b < 0xF5 then
      let lo2 := if b = 0xF0 then 0x90 else 0x80
      let hi2 := if b = 0xF4 then 0x90 else 0xC0
      match rest with
      | b2 :: rest2 =>
        if lo2 ≤ b2 ∧ b2 < hi2 then
          match rest2 with
          | b3 :: rest3 =>
            if utf8Cont b3 then
              match rest3 with
              | b4 :: rest4 =>
                if utf8Cont b4 then
                  Char.ofNat ((b - 0xF0) * 0x40000 + (b2 - 0x80) * 0x1000 +
                      (b3 - 0x80) * 0x40 + (b4 - 0x80)) ::
                    utf8DecodeAux emitRepl fuel rest4
                else repl ++ utf8DecodeAux emitRepl fuel rest3
              | [] => repl
            else repl ++ utf8DecodeAux emitRepl fuel rest2
          | [] => repl
        else repl ++ utf8DecodeAux emitRepl fuel rest
      | [] => repl
    else repl ++ utf8DecodeAux emitRepl fuel rest

/-- `bytes.decode('utf-8', errors='replace')`. -/
def utf8DecodeRepl (l : List Nat) : List Char := utf8DecodeAux true l.length l

/-- `bytes.decode('utf-8', errors='ignore')`. -/
def utf8DecodeIgnore (l : List Nat) : List Char := utf8DecodeAux false l.length l

/-- Maximal runs of ASCII / non-ASCII characters (the split that
`urllib.parse.unquote` performs with `_asciire`).  `fuel` is instantiated
with the length. -/
def asciiRuns : Nat → List Char → List (List Char)
  | _, [] => []
  | 0, l => [l]
  | fuel + 1, c :: rest =>
    let p := (c :: rest).span (fun x => isAsciiChar x == isAsciiChar c)
    p.1 :: asciiRuns fuel p.2

/-- Model of `urllib.parse.unquote(s)` with the default
`encoding='utf-8', errors='replace'`: if no `%` occurs the string is
returned as is; otherwise each maximal ASCII run is percent-decoded to
bytes and UTF-8-decoded with replacement, non-ASCII runs pass through. -/
def pyUnquote (s : List Char) : List Char :=
  if s.contains '%' then
    concatAll ((asciiRuns s.length s).map fun run =>
      if run.all isAsciiChar then utf8DecodeRepl (unquoteToBytes run) else run)
  else s

/-- Does `c` belong to the Base64 alphabet class `[A-Za-z0-9+/=]`? -/
def isB64Char (c : Char) : Bool :=
  ('A' ≤ c && c ≤ 'Z') || ('a' ≤ c && c ≤ 'z') || ('0' ≤ c && c ≤ '9') ||
    c == '+' || c == '/' || c == '='

/-- Model of `re.match(r'^[A-Za-z0-9+/=]+$', s)` succeeding: every
character in the alphabet, nonempty; `$` also matches just before a single
trailing newline. -/
def b64AlphabetMatch (s : List Char) : Bool :=
  let core := if s.getLast? = some '\n' then s.dropLast else s
  !core.isEmpty && core.all isB64Char

/-- Base64 digit value of a character. -/
def b64CharVal (c : Char) : Option Nat :=
  if 'A' ≤ c ∧ c ≤ 'Z' then some (c.toNat - 'A'.toNat)
  else if 'a' ≤ c ∧ c ≤ 'z' then some (c.toNat - 'a'.toNat + 26)
  else if '0' ≤ c ∧ c ≤ '9' then some (c.toNat - '0'.toNat + 52)
  else if c = '+' then some 62
  else if c = '/' then some 63
  else none

/-- Turn a list of 6-bit Base64 digit values into bytes (full quads give
three bytes; a trailing pair or triple gives one or two bytes, surplus
bits dropped as `binascii` does). -/
def b64DecodeVals : List Nat → List Nat
  | v1 :: v2 :: v3 :: v4 :: rest =>
    (v1 * 4 + v2 / 16) :: ((v2 % 16) * 16 + v3 / 4) :: ((v3 % 4) * 64 + v4) ::
      b64DecodeVals rest
  | [v1, v2] => [v1 * 4 + v2 / 16]
  | [v1, v2, v3] => [v1 * 4 + v2 / 16, (v2 % 16) * 16 + v3 / 4]
  | _ => []

/-- Model of `base64.b64decode(s, validate=True)`: the validation regex
requires Base64 digits followed by at most two `=`; `a2b_base64` then
emits three bytes per full quad of digits and, eagerly, one byte from a
trailing digit pair or two from a trailing triple.  It succeeds when the
trailing group is empty (any `=` after complete quads being ignored), a
pair completed by two `=`, or a triple completed by at least one `=`;
otherwise `binascii.Error` is raised (`none`) — a single leftover digit
always errors. -/
def b64decodePy (s : List Char) : Option (List Nat) :=
  let padLen := (s.reverse.takeWhile (fun c => c == '=')).length
  let data := s.take (s.length - padLen)
  if padLen ≤ 2 ∧ data.all (fun c => (b64CharVal c).isSome) ∧
      (data.length % 4 = 0 ∨ (data.length % 4 = 2 ∧ padLen = 2) ∨
        (data.length % 4 = 3 ∧ 1 ≤ padLen)) then
    some (b64DecodeVals (data.filterMap b64CharVal))
  else none

/-- Model of Python `str.isprintable` (exact on ASCII and Latin-1; the
common `Zs`/`Zl`/`Zp`/`Cf` code points are listed, remaining non-ASCII
code points are approximated as printable). -/
def pyIsPrintable (c : Char) : Bool :=
  let n := c.toNat
  if n = 0x20 then true
  else if n < 0x20 then false
  else if n < 0x7F then true
  else if n ≤ 0xA0 then false
  else if n = 0xAD then false
  else if n = 0x1680 then false
  else if 0x2000 ≤ n ∧ n ≤ 0x200F then false
  else if n = 0x2028 ∨ n = 0x2029 then false
  else if 0x202A ≤ n ∧ n ≤ 0x202E then false
  else if n = 0x202F ∨ n = 0x205F ∨ n = 0x3000 then false
  else if 0x2060 ≤ n ∧ n ≤ 0x2064 then false
  else if n = 0xFEFF then false
  else true

/-- One iteration body of the `fully_decode` loop: URL-decode and keep the
result if it changed; otherwise, when the whole string looks like Base64
and has at least 20 characters, try a Base64 decode and accept it when the
ignore-decoded text has more than 10 characters and a printable ratio
above 0.7 (the float comparison `sum/len > 0.7` is exact as the rational
test `10*count > 7*len` at these list sizes). -/
def decodeStep (current : List Char) : List Char :=
  let decoded := pyUnquote current
  if decoded ≠ current then decoded
  else if 20 ≤ current.length ∧ b64AlphabetMatch current = true then
    match b64decodePy current with
    | some bs =>
      let d := utf8DecodeIgnore bs
      if 10 < d.length ∧ 7 * d.length < 10 * d.countP pyIsPrintable then d else current
    | none => current
  else current

/-- The `for _ in range(max_iterations)` loop of `fully_decode`: stop when
an iteration leaves the string unchanged or the budget runs out. -/
def fullyDecodeLoop : Nat → Option (List Char) → List Char → List Char
  | 0, _, current => current
  | n + 1, previous, current =>
    if previous = some current then current
    else fullyDecodeLoop n (some current) (decodeStep current)

/-- Model of `fully_decode`: empty content is returned unchanged,
otherwise up to five decode iterations are applied. -/
def fullyDecode (content : List Char) : List Char :=
  if content = [] then content else fullyDecodeLoop 5 none content

/-- A detection rule as written in `patterns.py`: regex source text plus
metadata. -/
structure RawPattern where
  pattern : List Char
  severity : String
  category : String
  lang : String

/-- A compiled detection rule as held by `TieredScanner`: the metadata
plus the behaviour of `regex.search` on the (lowercased) text, modelled
as a Boolean test since the regex engine is external to the scanner. -/
structure CompiledPattern where
  pattern : List Char
  severity : String
  category : String
  lang : String
  test : List Char → Bool

/-- Model of `TieredScanner._compile_patterns`: `compileFn` stands for
`re.compile` (returning `none` on `re.error`); a pattern that fails to
compile is skipped with a warning, all others are kept in order. -/
def compilePatterns (compileFn : List Char → Option (List Char → Bool))
    (ps : List RawPattern) : List CompiledPattern :=
  ps.filterMap fun p =>
    (compileFn p.pattern).map fun t =>
      { pattern := p.pattern, severity := p.severity, category := p.category,
        lang := p.lang, test := t }

/-- A match record as built by `TieredScanner._scan_tier` and tagged in
`scan`: the dict keys `pattern`, `severity`, `type`, `lang`, with the
`decoded` / `markdown_stripped` keys absent (`none`) unless `scan` sets
them on a transformed variant's matches. -/
structure MatchRec where
  pattern : List Char
  severity : String
  type : String
  lang : String
  decoded : Option Bool := none
  markdownStripped : Option Bool := none
deriving DecidableEq

/-- The deduplication key used in `scan`:
`(m["pattern"], m["severity"], m["type"])`. -/
def dedupKey (m : MatchRec) : List Char × String × String :=
  (m.pattern, m.severity, m.type)

/-- Model of `str.lower` per character (ASCII case mapping; the full
Unicode table is not needed by any theorem below, which treat this
function as the model of lowercasing). -/
def pyLowerChar (c : Char) : Char :=
  if 'A' ≤ c ∧ c ≤ 'Z' then Char.ofNat (c.toNat + 32) else c

/-- Model of `content.lower()`. -/
def pyLower (l : List Char) : List Char := l.map pyLowerChar

/-- The match record built for a pattern hit: snippet truncated to 50
characters, severity, category under the key `type`, language tag. -/
def mkMatchRec (cp : CompiledPattern) : MatchRec :=
  { pattern := cp.pattern.take 50, severity := cp.severity,
    type := cp.category, lang := cp.lang }

/-- Model of `TieredScanner._scan_tier`: lowercase the content once, then
record one match per pattern whose search succeeds on it. -/
def scanTier (content : List Char) (compiled : List CompiledPattern) : List MatchRec :=
  let contentLower := pyLower content
  compiled.filterMap fun cp =>
    if cp.test contentLower then some (mkMatchRec cp) else none

/-- The scanner's per-instance configuration: the three compiled tiers,
the markdown stripper and content hash (both external text functions,
modelled abstractly), and the cache capacity. -/
structure Scanner where
  criticalP : List CompiledPattern
  highP : List CompiledPattern
  mediumP : List CompiledPattern
  stripMd : List Char → List Char
  hashFn : List Char → String
  maxCacheSize : Nat

/-- Model of `TieredScanner._scan_all_tiers`: Critical always; High when
the requested tier is at least 1 or some Critical pattern matched;
Medium when the requested tier is at least 2. -/
def scanAllTiers (sc : Scanner) (content : List Char) (tier : Nat) : List MatchRec :=
  let criticalMatches := scanTier content sc.criticalP
  let withHigh :=
    if 1 ≤ tier ∨ 0 < criticalMatches.length then
      criticalMatches ++ scanTier content sc.highP
    else criticalMatches
  if 2 ≤ tier then withHigh ++ scanTier content sc.mediumP else withHigh

/-- The aggregated (pre-deduplication) match list of `scan`: the original
content always; when decoding is enabled, also the fully decoded variant
(tagged `decoded=True`) and the markdown-stripped variant (tagged
`markdown_stripped=True`), each only when it differs from the original. -/
def aggregateMatches (sc : Scanner) (content : List Char) (tier : Nat)
    (decodeContent : Bool) : List MatchRec :=
  let ms := scanAllTiers sc content tier
  if decodeContent then
    let decoded := fullyDecode content
    let ms :=
      if decoded ≠ content then
        ms ++ (scanAllTiers sc decoded tier).map fun m => { m with decoded := some true }
      else ms
    let stripped := sc.stripMd content
    if stripped ≠ content then
      ms ++ (scanAllTiers sc stripped tier).map fun m => { m with markdownStripped := some true }
    else ms
  else ms

/-- The dedup loop of `scan`: keep a match only when its key has not been
seen yet. -/
def dedupAux (seen : List (List Char × String × String)) : List MatchRec → List MatchRec
  | [] => []
  | m :: rest =>
    if dedupKey m ∈ seen then dedupAux seen rest
    else m :: dedupAux (dedupKey m :: seen) rest

/-- Deduplicate a match list, keeping first occurrences. -/
def dedupMatches (ms : List MatchRec) : List MatchRec := dedupAux [] ms

/-- The cache-independent part of `scan`: aggregate over all variants,
deduplicate, and flag danger iff any match survives. -/
def computeMatches (sc : Scanner) (content : List Char) (tier : Nat)
    (decodeContent : Bool) : Bool × List MatchRec :=
  let unique := dedupMatches (aggregateMatches sc content tier decodeContent)
  (decide (0 < unique.length), unique)

/-- A cached value: `(is_dangerous, unique_matches)`. -/
abbrev CacheVerdict := Bool × List MatchRec

/-- Lookup in the insertion-ordered dict that models `self.cache`. -/
def dictLookup : List (String × CacheVerdict) → String → Option CacheVerdict
  | [], _ => none
  | (k, v) :: rest, key => if k = key then some v else dictLookup rest key

/-- Python dict assignment: an existing key keeps its position, a new key
is appended at the end (insertion order). -/
def dictInsert : List (String × CacheVerdict) → String → CacheVerdict →
    List (String × CacheVerdict)
  | [], k, v => [(k, v)]
  | (k', v') :: rest, k, v =>
    if k' = k then (k', v) :: rest else (k', v') :: dictInsert rest k v

/-- Model of `TieredScanner._update_cache`: when the cache has reached its
capacity, drop the first (oldest-inserted) entry before storing; on an
empty full cache (capacity 0) `next(iter(self.cache))` raises
`StopIteration`, modelled as `none`. -/
def updateCache (cache : List (String × CacheVerdict)) (maxSize : Nat)
    (k : String) (v : CacheVerdict) : Option (List (String × CacheVerdict)) :=
  if maxSize ≤ cache.length then
    match cache with
    | [] => none
    | _ :: rest => some (dictInsert rest k v)
  else some (dictInsert cache k v)

/-- The mutable state of a `TieredScanner`: cache and hit/miss counters. -/
structure ScannerState where
  cache : List (String × CacheVerdict) := []
  cacheHits : Nat := 0
  cacheMisses : Nat := 0
deriving DecidableEq

/-- A freshly constructed scanner's state. -/
def initialState : ScannerState := {}

/-- The string hashed for the cache key:
`content + f":decode={decode_content}"`. -/
def cacheKeyStr (content : List Char) (decodeContent : Bool) : List Char :=
  content ++ (if decodeContent then ":decode=True" else ":decode=False").data

/-- Model of `TieredScanner.scan` (duration omitted, as it is the only
wall-clock output): returns `(is_dangerous, matches)` and the updated
state, or `none` when `_update_cache` raises. -/
def scan (sc : Scanner) (st : ScannerState) (content : List Char) (tier : Nat)
    (useCache decodeContent : Bool) : Option (Bool × List MatchRec × ScannerState) :=
  if useCache then
    let cacheKey := sc.hashFn (cacheKeyStr content decodeContent)
    match dictLookup st.cache cacheKey with
    | some (d, ms) => some (d, ms, { st with cacheHits := st.cacheHits + 1 })
    | none =>
      let st1 := { st with cacheMisses := st.cacheMisses + 1 }
      let r := computeMatches sc content tier decodeContent
      match updateCache st1.cache sc.maxCacheSize cacheKey r with
      | some c => some (r.1, r.2, { st1 with cache := c })
      | none => none
  else
    let r := computeMatches sc content tier decodeContent
    some (r.1, r.2, st)

/-- Model of `TieredScanner.clear_cache`. -/
def clearCache (_st : ScannerState) : ScannerState := {}

/-- The externally visible verdict of a `scan` call:
`(is_dangerous, matches)`. -/
def projVerdict (r : Bool × List MatchRec × ScannerState) : Bool × List MatchRec :=
  (r.1, r.2.1)

/-- The operations that touch the cache (used to state the eviction-bound
invariant): a `scan` call, `clear_cache`, and a direct `_update_cache`. -/
inductive ScannerOp where
  | scanOp (content : List Char) (tier : Nat) (useCache decodeContent : Bool)
  | clearOp
  | updateOp (key : String) (value : CacheVerdict)

/-- Apply one operation to the scanner state. -/
def stepOp (sc : Scanner) (st : ScannerState) : ScannerOp → Option ScannerState
  | .scanOp content tier useCache decodeContent =>
    (scan sc st content tier useCache decodeContent).map fun r => r.2.2
  | .clearOp => some (clearCache st)
  | .updateOp k v =>
    (updateCache st.cache sc.maxCacheSize k v).map fun c => { st with cache := c }

/-- Run a sequence of operations, stopping at the first raised exception. -/
def runOps (sc : Scanner) : ScannerState → List ScannerOp → Option ScannerState
  | st, [] => some st
  | st, op :: rest =>
    match stepOp sc st op with
    | some st' => runOps sc st' rest
    | none => none

/-- Substring occurrence test used by the demonstration catalog below to
stand in for `regex.search` with a literal pattern. -/
def startsWithSeq : List Char → List Char → Bool
  | [], _ => true
  | _ :: _, [] => false
  | a :: as, b :: bs => a == b && startsWithSeq as bs

/-- Does `needle` occur contiguously in the second list? -/
def containsSeq (needle : List Char) : List Char → Bool
  | [] => startsWithSeq needle []
  | c :: rest => startsWithSeq needle (c :: rest) || containsSeq needle rest

/-- Demonstration Critical-tier rule (a literal-substring stand-in for a
`data_exfiltration` regex of `patterns.py`). -/
def demoCritical : CompiledPattern :=
  { pattern := "password".data, severity := "critical", category := "data_exfiltration",
    lang := "en", test := fun s => containsSeq "password".data s }

/-- Demonstration High-tier rule. -/
def demoHigh : CompiledPattern :=
  { pattern := "jailbreak".data, severity := "high", category := "jailbreak",
    lang := "en", test := fun s => containsSeq "jailbreak".data s }

/-- Demonstration Medium-tier rule. -/
def demoMedium : CompiledPattern :=
  { pattern := "urgent".data, severity := "medium", category := "urgency_manipulation",
    lang := "en", test := fun s => containsSeq "urgent".data s }

/-- A concrete scanner instance over the demonstration catalog, with an
injective stand-in for the content hash and the identity in place of the
markdown stripper. -/
def demoScanner : Scanner :=
  { criticalP := [demoCritical], highP := [demoHigh], mediumP := [demoMedium],
    stripMd := fun s => s, hashFn := fun l => String.mk l, maxCacheSize := 4 }

/-- The match produced by the demonstration Medium rule. -/
def demoMedMatch : MatchRec :=
  { pattern := "urgent".data, severity := "medium", type := "urgency_manipulation",
    lang := "en" }

/-- The cache key of the content `"urgent"` with decoding disabled, under
the demonstration scanner. -/
def c2Key : String := demoScanner.hashFn (cacheKeyStr "urgent".data false)

/-- The scanner state after `scan("urgent", tier=2, use_cache=True,
decode_content=False)` from a fresh state. -/
def c2State1 : ScannerState :=
  { cache := [(c2Key, (true, [demoMedMatch]))], cacheHits := 0, cacheMisses := 1 }

/-- The match produced by the demonstration Critical rule. -/
def demoCritMatch : MatchRec :=
  { pattern := "password".data, severity := "critical", type := "data_exfiltration",
    lang := "en" }

/-- The Medium rule's match as tagged on the decoded variant (the same
deduplication key as `demoMedMatch`, different provenance). -/
def demoMedDecodedMatch : MatchRec :=
  { demoMedMatch with decoded := some true }

/-- A demonstration operation sequence: six direct cache updates on a
capacity-4 scanner (forcing evictions), a cached scan, a cache clear, and
a final update. -/
def c6Ops : List ScannerOp :=
  [.updateOp "k1" (false, []), .updateOp "k2" (false, []), .updateOp "k3" (false, []),
   .updateOp "k4" (false, []), .updateOp "k5" (false, []),
   .scanOp "urgent".data 2 true false, .clearOp, .updateOp "z" (true, [demoMedMatch])]

/-- The state reached by running `c6Ops` on the demonstration scanner. -/
def c6FinalState : ScannerState :=
  { cache := [("z", (true, [demoMedMatch]))], cacheHits := 0, cacheMisses := 0 }

/-- Zeta-reduced restatement of `scan`, convenient for case analysis. -/
theorem scan_def (sc : Scanner) (st : ScannerState) (content : List Char) (tier : Nat)
    (useCache dc : Bool) :
    scan sc st content tier useCache dc =
      if useCache then
        match dictLookup st.cache (sc.hashFn (cacheKeyStr content dc)) with
        | some (d, ms) => some (d, ms, { st with cacheHits := st.cacheHits + 1 })
        | none =>
          match updateCache st.cache sc.maxCacheSize (sc.hashFn (cacheKeyStr content dc))
              (computeMatches sc content tier dc) with
          | some c =>
            some ((computeMatches sc content tier dc).1,
              (computeMatches sc content tier dc).2,
              { cache := c, cacheHits := st.cacheHits, cacheMisses := st.cacheMisses + 1 })
          | none => none
      else
        some ((computeMatches sc content tier dc).1, (computeMatches sc content tier dc).2,
          st) := rfl

/-- Claim C1: at requested tier 0, a Critical hit on a variant makes the
scanner also run the High patterns on that variant (so severity-"high"
matches can appear), while with no Critical hit neither the High nor the
Medium patterns contribute any match for that variant. -/
theorem scanAllTiers_tier0_escalation (sc : Scanner) (content : List Char) :
    (scanTier content sc.criticalP ≠ [] →
      scanAllTiers sc content 0 =
        scanTier content sc.criticalP ++ scanTier content sc.highP) ∧
    (scanTier content sc.criticalP = [] → scanAllTiers sc content 0 = []) := by
  constructor
  · intro h
    have hp : 0 < (scanTier content sc.criticalP).length := List.length_pos.mpr h
    simp only [scanAllTiers]
    rw [if_pos (Or.inr hp), if_neg (by omega)]
  · intro h
    simp [scanAllTiers, h]

/-- Witness for C1: on the demonstration catalog, content hitting the
Critical rule at tier 0 yields the Critical and High scans concatenated. -/
theorem scanAllTiers_tier0_escalation_witness :
    scanAllTiers demoScanner "my password".data 0 =
      scanTier "my password".data demoScanner.criticalP ++
        scanTier "my password".data demoScanner.highP :=
  (scanAllTiers_tier0_escalation demoScanner "my password".data).1 (by decide)

/-- Claim C9: pattern compilation keeps exactly the patterns whose
expression compiles, in order and with their metadata; a failing pattern
is dropped (and compilation, being a total function, never raises). -/
theorem compilePatterns_keeps_exactly_valid
    (compileFn : List Char → Option (List Char → Bool)) (ps : List RawPattern) :
    (compilePatterns compileFn ps).map
        (fun cp => (cp.pattern, cp.severity, cp.category, cp.lang)) =
      (ps.filter (fun p => (compileFn p.pattern).isSome)).map
        (fun p => (p.pattern, p.severity, p.category, p.lang)) := by
  induction ps with
  | nil => rfl
  | cons p rest ih =>
    simp only [compilePatterns, List.filterMap_cons, List.filter_cons] at *
    cases h : compileFn p.pattern with
    | none => simpa [h] using ih
    | some t => simpa [h] using ih

/-- Lowercasing the content determines each tier scan. -/
theorem scanTier_congr_lower {a b : List Char} (h : pyLower a = pyLower b)
    (ps : List CompiledPattern) : scanTier a ps = scanTier b ps := by
  unfold scanTier
  rw [h]

/-- Claim C10: with caching and decoding disabled, two contents equal
after lowercasing receive identical verdicts (danger flag and matches). -/
theorem scan_lower_determines_verdict (sc : Scanner) (st : ScannerState)
    (s t : List Char) (tier : Nat) (h : pyLower s = pyLower t) :
    (scan sc st s tier false false).map projVerdict =
      (scan sc st t tier false false).map projVerdict := by
  have h2 : scanAllTiers sc s tier = scanAllTiers sc t tier := by
    simp only [scanAllTiers, scanTier_congr_lower h]
  have h3 : computeMatches sc s tier false = computeMatches sc t tier false := by
    simp only [computeMatches, aggregateMatches, Bool.false_eq_true, if_false, h2]
  rw [scan_def, scan_def, h3]
  simp

/-- Witness for C10 at concrete contents differing only in letter case. -/
theorem scan_lower_determines_verdict_witness :
    (scan demoScanner initialState "PassWord".data 1 false false).map projVerdict =
      (scan demoScanner initialState "password".data 1 false false).map projVerdict :=
  scan_lower_determines_verdict demoScanner initialState "PassWord".data "password".data 1
    (by decide)

/-- With positive capacity, a cache update never raises. -/
theorem updateCache_isSome_of_pos (cache : List (String × CacheVerdict)) (maxSize : Nat)
    (k : String) (v : CacheVerdict) (h : 1 ≤ maxSize) :
    (updateCache cache maxSize k v).isSome := by
  unfold updateCache
  split
  · rename_i hfull
    cases cache with
    | nil => simp at hfull; omega
    | cons e rest => simp
  · simp

/-- Claim C2, amended: a cached `scan` agrees with an uncached one on
`is_dangerous` and `matches` provided every cache entry stored under this
content's fingerprint holds the verdict this tier would compute (true in
particular when all earlier scans of this content used the same tier). -/
theorem scan_cache_transparent_of_consistent (sc : Scanner) (st : ScannerState)
    (content : List Char) (tier : Nat) (dc : Bool)
    (hmax : 1 ≤ sc.maxCacheSize)
    (hcons : ∀ v, dictLookup st.cache (sc.hashFn (cacheKeyStr content dc)) = some v →
      v = computeMatches sc content tier dc) :
    (scan sc st content tier true dc).map projVerdict =
      (scan sc st content tier false dc).map projVerdict := by
  rw [scan_def, scan_def]
  simp only [if_pos rfl]
  cases hl : dictLookup st.cache (sc.hashFn (cacheKeyStr content dc)) with
  | some v =>
    obtain ⟨d, ms⟩ := v
    have hv := hcons (d, ms) hl
    simp [projVerdict, hv]
  | none =>
    have hs := updateCache_isSome_of_pos st.cache sc.maxCacheSize
      (sc.hashFn (cacheKeyStr content dc)) (computeMatches sc content tier dc) hmax
    obtain ⟨c, hc⟩ := Option.isSome_iff_exists.mp hs
    simp [hc, projVerdict]

/-- Witness for the amended C2: from a fresh (empty-cache) state the
hypothesis holds vacuously and the cached and uncached verdicts agree. -/
theorem scan_cache_transparent_of_consistent_witness :
    (scan demoScanner initialState "urgent".data 1 true false).map projVerdict =
      (scan demoScanner initialState "urgent".data 1 false false).map projVerdict :=
  scan_cache_transparent_of_consistent demoScanner initialState "urgent".data 1 false
    (by decide) (fun v h => by simp [initialState, dictLookup] at h)

/-- Counterexample to C2 as stated: the cache key omits the tier, so a
tier-2 scan of "urgent" (hitting a Medium rule) poisons a later tier-0
cached scan of the same content, which then disagrees with the uncached
tier-0 verdict. -/
theorem scan_cache_ignores_tier :
    scan demoScanner initialState "urgent".data 2 true false =
      some (true, [demoMedMatch], c2State1) ∧
    (scan demoScanner c2State1 "urgent".data 0 true false).map projVerdict ≠
      (scan demoScanner c2State1 "urgent".data 0 false false).map projVerdict := by
  decide

/-- Python dict assignment grows the table by at most one entry. -/
theorem dictInsert_length_le (cache : List (String × CacheVerdict)) (k : String)
    (v : CacheVerdict) : (dictInsert cache k v).length ≤ cache.length + 1 := by
  induction cache with
  | nil => simp [dictInsert]
  | cons e rest ih =>
    obtain ⟨k', v'⟩ := e
    simp only [dictInsert]
    split
    · simp
    · simpa using Nat.succ_le_succ ih

/-- A successful cache update preserves the capacity bound. -/
theorem updateCache_length_le {cache : List (String × CacheVerdict)} {maxSize : Nat}
    {k : String} {v : CacheVerdict} {c' : List (String × CacheVerdict)}
    (h : updateCache cache maxSize k v = some c')
    (hb : cache.length ≤ maxSize) : c'.length ≤ maxSize := by
  unfold updateCache at h
  split at h
  · cases cache with
    | nil => exact absurd h (by simp)
    | cons e rest =>
      simp only [Option.some.injEq] at h
      subst h
      have h1 := dictInsert_length_le rest k v
      simp at hb
      omega
  · rename_i hnot
    simp only [Option.some.injEq] at h
    subst h
    have h1 := dictInsert_length_le cache k v
    omega

/-- Every operation that succeeds preserves the cache capacity bound. -/
theorem stepOp_cache_bound {sc : Scanner} {st st' : ScannerState} {op : ScannerOp}
    (h : stepOp sc st op = some st')
    (hb : st.cache.length ≤ sc.maxCacheSize) : st'.cache.length ≤ sc.maxCacheSize := by
  cases op with
  | clearOp =>
    simp only [stepOp, clearCache, Option.some.injEq] at h
    subst h
    simp
  | updateOp k v =>
    simp only [stepOp] at h
    cases hu : updateCache st.cache sc.maxCacheSize k v with
    | none => rw [hu] at h; simp at h
    | some c =>
      rw [hu] at h
      simp at h
      subst h
      exact updateCache_length_le hu hb
  | scanOp content tier useCache dc =>
    simp only [stepOp, scan_def] at h
    cases useCache with
    | false =>
      simp at h
      subst h
      exact hb
    | true =>
      cases hl : dictLookup st.cache (sc.hashFn (cacheKeyStr content dc)) with
      | some v =>
        obtain ⟨d, ms⟩ := v
        rw [hl] at h
        simp at h
        subst h
        exact hb
      | none =>
        rw [hl] at h
        cases hu : updateCache st.cache sc.maxCacheSize
            (sc.hashFn (cacheKeyStr content dc)) (computeMatches sc content tier dc) with
        | none => rw [hu] at h; simp at h
        | some c =>
          rw [hu] at h
          simp at h
          subst h
          exact updateCache_length_le hu hb

/-- Any successful run of operations preserves the cache capacity bound. -/
theorem runOps_cache_bound (sc : Scanner) :
    ∀ (ops : List ScannerOp) (st st' : ScannerState),
      runOps sc st ops = some st' → st.cache.length ≤ sc.maxCacheSize →
      st'.cache.length ≤ sc.maxCacheSize := by
  intro ops
  induction ops with
  | nil =>
    intro st st' h hb
    simp only [runOps, Option.some.injEq] at h
    subst h
    exact hb
  | cons op rest ih =>
    intro st st' h hb
    simp only [runOps] at h
    cases hs : stepOp sc st op with
    | none => rw [hs] at h; simp at h
    | some st1 =>
      rw [hs] at h
      exact ih st1 st' h (stepOp_cache_bound hs hb)

/-- Claim C6: starting from a fresh scanner, no sequence of scan, cache
clear, and cache-update operations ever grows the cache beyond the
configured capacity; and an insertion hitting a full, nonempty cache
first removes exactly the oldest-inserted entry and then stores. -/
theorem cache_bounded_and_evicts_oldest :
    (∀ (sc : Scanner) (ops : List ScannerOp) (st : ScannerState),
      runOps sc initialState ops = some st → st.cache.length ≤ sc.maxCacheSize) ∧
    (∀ (maxSize : Nat) (e : String × CacheVerdict)
        (rest : List (String × CacheVerdict)) (k : String) (v : CacheVerdict),
      maxSize ≤ (e :: rest).length →
      updateCache (e :: rest) maxSize k v = some (dictInsert rest k v)) := by
  constructor
  · intro sc ops st h
    exact runOps_cache_bound sc ops initialState st h (by simp [initialState])
  · intro maxSize e rest k v h
    unfold updateCache
    rw [if_pos h]

/-- Witness for C6: running the demonstration operation sequence (which
forces evictions) respects the bound, and a concrete full cache evicts
its head on update. -/
theorem cache_bounded_and_evicts_oldest_witness :
    c6FinalState.cache.length ≤ demoScanner.maxCacheSize ∧
    updateCache [("a", (false, []))] 1 "b" (true, []) =
      some (dictInsert [] "b" (true, [])) :=
  ⟨cache_bounded_and_evicts_oldest.1 demoScanner c6Ops c6FinalState (by decide),
   cache_bounded_and_evicts_oldest.2 1 ("a", (false, [])) [] "b" (true, []) (by decide)⟩

/-- Deduplication only keeps elements of the input list. -/
theorem dedupAux_subset (seen : List (List Char × String × String)) (l : List MatchRec) :
    ∀ m ∈ dedupAux seen l, m ∈ l := by
  induction l generalizing seen with
  | nil => intro m hm; simp [dedupAux] at hm
  | cons x rest ih =>
    intro m hm
    simp only [dedupAux] at hm
    split at hm
    · exact List.mem_cons_of_mem _ (ih seen m hm)
    · rcases List.mem_cons.mp hm with h | h
      · exact h ▸ List.mem_cons_self _ _
      · exact List.mem_cons_of_mem _ (ih _ m h)

/-- A key appears among the deduplicated matches iff it appears in the
input and was not already seen. -/
theorem dedupAux_key_mem (l : List MatchRec) :
    ∀ (seen : List (List Char × String × String)) (k : List Char × String × String),
      k ∈ (dedupAux seen l).map dedupKey ↔ k ∈ l.map dedupKey ∧ k ∉ seen := by
  induction l with
  | nil => intro seen k; simp [dedupAux]
  | cons x rest ih =>
    intro seen k
    simp only [dedupAux]
    split
    · rename_i hx
      rw [ih]
      simp only [List.map_cons, List.mem_cons]
      constructor
      · rintro ⟨hk, hs⟩
        exact ⟨Or.inr hk, hs⟩
      · rintro ⟨hk | hk, hs⟩
        · exact absurd (hk ▸ hx) hs
        · exact ⟨hk, hs⟩
    · rename_i hx
      simp only [List.map_cons, List.mem_cons, ih]
      constructor
      · rintro (rfl | ⟨hk, hs⟩)
        · exact ⟨Or.inl rfl, hx⟩
        · exact ⟨Or.inr hk, fun hc => hs (Or.inr hc)⟩
      · rintro ⟨hk | hk, hs⟩
        · exact Or.inl hk
        · by_cases hkx : k = dedupKey x
          · exact Or.inl hkx
          · refine Or.inr ⟨hk, fun hc => ?_⟩
            rcases hc with h | h
            · exact hkx h
            · exact hs h

/-- The deduplicated key list has no duplicates. -/
theorem dedupAux_keys_nodup (l : List MatchRec) :
    ∀ seen, ((dedupAux seen l).map dedupKey).Nodup := by
  induction l with
  | nil => intro seen; simp [dedupAux]
  | cons x rest ih =>
    intro seen
    simp only [dedupAux]
    split
    · exact ih seen
    · rename_i hx
      simp only [List.map_cons, List.nodup_cons]
      refine ⟨?_, ih _⟩
      rw [dedupAux_key_mem]
      rintro ⟨_, hmem⟩
      exact hmem (List.mem_cons_self _ _)

/-- Every surviving match is the first input element bearing its key. -/
theorem dedupAux_first_occ (l : List MatchRec) :
    ∀ (seen : List (List Char × String × String)), ∀ m ∈ dedupAux seen l,
      dedupKey m ∉ seen ∧
      l.find? (fun x => decide (dedupKey x = dedupKey m)) = some m := by
  induction l with
  | nil => intro seen m hm; simp [dedupAux] at hm
  | cons x rest ih =>
    intro seen m hm
    simp only [dedupAux] at hm
    by_cases hx : dedupKey x ∈ seen
    · rw [if_pos hx] at hm
      obtain ⟨hs, hf⟩ := ih seen m hm
      have hne : ¬(dedupKey x = dedupKey m) := fun he => hs (he ▸ hx)
      refine ⟨hs, ?_⟩
      rw [List.find?_cons_of_neg _ (by simpa using hne), hf]
    · rw [if_neg hx] at hm
      rcases List.mem_cons.mp hm with rfl | hm'
      · exact ⟨hx, List.find?_cons_of_pos _ (by simp)⟩
      · obtain ⟨hs, hf⟩ := ih _ m hm'
        have hne : ¬(dedupKey x = dedupKey m) :=
          fun he => hs (List.mem_cons.mpr (Or.inl he.symm))
        refine ⟨fun hc => hs (List.mem_cons_of_mem _ hc), ?_⟩
        rw [List.find?_cons_of_neg _ (by simpa using hne), hf]

/-- Claim C4: the returned matches carry pairwise distinct
(pattern, severity, category) keys; each surviving entry is the first
match bearing its key in aggregation order (original, then decoded, then
stripped variant; critical, then high, then medium within a variant),
with that occurrence's provenance flags; and every aggregated match's key
survives into the output — so a pattern triggered by several variants
yields exactly one Match. -/
theorem computeMatches_dedup_first (sc : Scanner) (content : List Char) (tier : Nat)
    (dc : Bool) :
    ((computeMatches sc content tier dc).2.map dedupKey).Nodup ∧
    (∀ m ∈ (computeMatches sc content tier dc).2,
      (aggregateMatches sc content tier dc).find?
        (fun x => decide (dedupKey x = dedupKey m)) = some m) ∧
    (∀ m' ∈ aggregateMatches sc content tier dc,
      dedupKey m' ∈ (computeMatches sc content tier dc).2.map dedupKey) := by
  refine ⟨dedupAux_keys_nodup _ [], fun m hm => (dedupAux_first_occ _ [] m hm).2, ?_⟩
  intro m' hm'
  show dedupKey m' ∈ (dedupAux [] (aggregateMatches sc content tier dc)).map dedupKey
  rw [dedupAux_key_mem]
  exact ⟨List.mem_map_of_mem _ hm', List.not_mem_nil _⟩

/-- Witness for C4: "urgent%20urgent" triggers the Medium rule on both
the original and the URL-decoded variant; the decoded copy's key still
survives (so exactly one Match remains) and the survivor is the first —
original, untagged — occurrence. -/
theorem computeMatches_dedup_first_witness :
    (aggregateMatches demoScanner "urgent%20urgent".data 2 true).find?
      (fun x => decide (dedupKey x = dedupKey demoMedMatch)) = some demoMedMatch ∧
    dedupKey demoMedDecodedMatch ∈
      (computeMatches demoScanner "urgent%20urgent".data 2 true).2.map dedupKey :=
  ⟨(computeMatches_dedup_first demoScanner "urgent%20urgent".data 2 true).2.1
      demoMedMatch (by decide),
   (computeMatches_dedup_first demoScanner "urgent%20urgent".data 2 true).2.2
      demoMedDecodedMatch (by decide)⟩

/-- Pointwise subset of appended lists. -/
theorem append_subset_append {α : Type} {a b c d : List α} (h1 : a ⊆ c) (h2 : b ⊆ d) :
    a ++ b ⊆ c ++ d := by
  intro m hm
  rcases List.mem_append.mp hm with h | h
  · exact List.mem_append.mpr (Or.inl (h1 h))
  · exact List.mem_append.mpr (Or.inr (h2 h))

/-- A variant's matches at tier 0 are contained in those at tier 1. -/
theorem scanAllTiers_mono01 (sc : Scanner) (content : List Char) :
    scanAllTiers sc content 0 ⊆ scanAllTiers sc content 1 := by
  simp only [scanAllTiers]
  by_cases h : 0 < (scanTier content sc.criticalP).length
  · rw [if_pos (Or.inr h), if_pos (Or.inl (by omega : (1:Nat) ≤ 1)),
      if_neg (by omega : ¬(2:Nat) ≤ 0), if_neg (by omega : ¬(2:Nat) ≤ 1)]
    exact List.Subset.refl _
  · rw [if_neg (by simp [h] :
        ¬((1:Nat) ≤ 0 ∨ 0 < (scanTier content sc.criticalP).length)),
      if_pos (Or.inl (by omega : (1:Nat) ≤ 1)),
      if_neg (by omega : ¬(2:Nat) ≤ 0), if_neg (by omega : ¬(2:Nat) ≤ 1)]
    exact List.subset_append_left _ _

/-- A variant's matches at tier 1 are contained in those at tier 2. -/
theorem scanAllTiers_mono12 (sc : Scanner) (content : List Char) :
    scanAllTiers sc content 1 ⊆ scanAllTiers sc content 2 := by
  simp only [scanAllTiers]
  rw [if_pos (Or.inl (by omega : (1:Nat) ≤ 1)), if_pos (Or.inl (by omega : (1:Nat) ≤ 2)),
    if_neg (by omega : ¬(2:Nat) ≤ 1), if_pos (by omega : (2:Nat) ≤ 2)]
  exact List.subset_append_left _ _

/-- Tier-monotone variant scans give tier-monotone aggregates (the set of
variants does not depend on the tier). -/
theorem aggregateMatches_mono {sc : Scanner} {content : List Char} {dc : Bool}
    {t1 t2 : Nat}
    (hsub : ∀ v : List Char, scanAllTiers sc v t1 ⊆ scanAllTiers sc v t2) :
    aggregateMatches sc content t1 dc ⊆ aggregateMatches sc content t2 dc := by
  unfold aggregateMatches
  cases dc with
  | false => simpa using hsub content
  | true =>
    rw [if_pos rfl, if_pos rfl]
    dsimp only
    by_cases hd : fullyDecode content ≠ content
    · rw [if_pos hd, if_pos hd]
      by_cases hst : sc.stripMd content ≠ content
      · rw [if_pos hst, if_pos hst]
        exact append_subset_append
          (append_subset_append (hsub content) (List.map_subset _ (hsub _)))
          (List.map_subset _ (hsub _))
      · rw [if_neg hst, if_neg hst]
        exact append_subset_append (hsub content) (List.map_subset _ (hsub _))
    · rw [if_neg hd, if_neg hd]
      by_cases hst : sc.stripMd content ≠ content
      · rw [if_pos hst, if_pos hst]
        exact append_subset_append (hsub content) (List.map_subset _ (hsub _))
      · rw [if_neg hst, if_neg hst]
        exact hsub content

/-- The match component of `computeMatches` is the deduplicated
aggregate. -/
theorem computeMatches_snd (sc : Scanner) (content : List Char) (tier : Nat) (dc : Bool) :
    (computeMatches sc content tier dc).2 =
      dedupMatches (aggregateMatches sc content tier dc) := rfl

/-- Claim C5: for fixed content and decode flag (caching disabled), the
deduplication keys returned at tier 0 are contained in those at tier 1,
which are contained in those at tier 2. -/
theorem computeMatches_tier_keys_monotone (sc : Scanner) (content : List Char) (dc : Bool) :
    ((computeMatches sc content 0 dc).2.map dedupKey ⊆
      (computeMatches sc content 1 dc).2.map dedupKey) ∧
    ((computeMatches sc content 1 dc).2.map dedupKey ⊆
      (computeMatches sc content 2 dc).2.map dedupKey) := by
  constructor
  · intro k hk
    rw [computeMatches_snd] at hk ⊢
    unfold dedupMatches at hk ⊢
    rw [dedupAux_key_mem] at hk ⊢
    exact ⟨List.map_subset _
      (aggregateMatches_mono (fun v => scanAllTiers_mono01 sc v)) hk.1, hk.2⟩
  · intro k hk
    rw [computeMatches_snd] at hk ⊢
    unfold dedupMatches at hk ⊢
    rw [dedupAux_key_mem] at hk ⊢
    exact ⟨List.map_subset _
      (aggregateMatches_mono (fun v => scanAllTiers_mono12 sc v)) hk.1, hk.2⟩

/-- Witness for C5: the Critical hit's key at tier 0 is also present at
tier 1 under the demonstration catalog. -/
theorem computeMatches_tier_keys_monotone_witness :
    dedupKey demoCritMatch ∈
      (computeMatches demoScanner "password".data 1 false).2.map dedupKey :=
  (computeMatches_tier_keys_monotone demoScanner "password".data false).1 (by decide)

/-- Every tier-scan match arises from some pattern of that tier list. -/
theorem scanTier_mem {m : MatchRec} {content : List Char} {ps : List CompiledPattern}
    (h : m ∈ scanTier content ps) : ∃ cp ∈ ps, m = mkMatchRec cp := by
  simp only [scanTier] at h
  rw [List.mem_filterMap] at h
  obtain ⟨cp, hcp, he⟩ := h
  refine ⟨cp, hcp, ?_⟩
  by_cases ht : cp.test (pyLower content) = true
  · rw [if_pos ht] at he
    exact (Option.some.inj he).symm
  · rw [if_neg ht] at he
    exact absurd he (by simp)

/-- Every match of a full tiered scan arises from some catalog pattern. -/
theorem scanAllTiers_mem {sc : Scanner} {m : MatchRec} {content : List Char} {tier : Nat}
    (h : m ∈ scanAllTiers sc content tier) :
    ∃ cp, (cp ∈ sc.criticalP ∨ cp ∈ sc.highP ∨ cp ∈ sc.mediumP) ∧ m = mkMatchRec cp := by
  simp only [scanAllTiers] at h
  have hcase : m ∈ (if 1 ≤ tier ∨ 0 < (scanTier content sc.criticalP).length then
      scanTier content sc.criticalP ++ scanTier content sc.highP
    else scanTier content sc.criticalP) ∨ m ∈ scanTier content sc.mediumP := by
    split at h
    · rcases List.mem_append.mp h with h1 | h2
      · exact Or.inl h1
      · exact Or.inr h2
    · exact Or.inl h
  rcases hcase with h1 | h2
  · split at h1
    · rcases List.mem_append.mp h1 with ha | hb
      · obtain ⟨cp, hcp, he⟩ := scanTier_mem ha
        exact ⟨cp, Or.inl hcp, he⟩
      · obtain ⟨cp, hcp, he⟩ := scanTier_mem hb
        exact ⟨cp, Or.inr (Or.inl hcp), he⟩
    · obtain ⟨cp, hcp, he⟩ := scanTier_mem h1
      exact ⟨cp, Or.inl hcp, he⟩
  · obtain ⟨cp, hcp, he⟩ := scanTier_mem h2
    exact ⟨cp, Or.inr (Or.inr hcp), he⟩

/-- Every aggregated match comes from the original content's scan, from
the decoded variant's scan (only present when decoding changed the
content), or from the stripped variant's scan (only present when
stripping changed the content), with the corresponding provenance tag. -/
theorem mem_aggregate {sc : Scanner} {m : MatchRec} {content : List Char} {tier : Nat}
    {dc : Bool} (h : m ∈ aggregateMatches sc content tier dc) :
    m ∈ scanAllTiers sc content tier ∨
    (fullyDecode content ≠ content ∧
      ∃ m0 ∈ scanAllTiers sc (fullyDecode content) tier,
        m = { m0 with decoded := some true }) ∨
    (sc.stripMd content ≠ content ∧
      ∃ m0 ∈ scanAllTiers sc (sc.stripMd content) tier,
        m = { m0 with markdownStripped := some true }) := by
  unfold aggregateMatches at h
  cases dc with
  | false => simp at h; exact Or.inl h
  | true =>
    rw [if_pos rfl] at h
    dsimp only at h
    by_cases hd : fullyDecode content ≠ content
    · rw [if_pos hd] at h
      by_cases hst : sc.stripMd content ≠ content
      · rw [if_pos hst] at h
        rcases List.mem_append.mp h with h1 | h2
        · rcases List.mem_append.mp h1 with ha | hb
          · exact Or.inl ha
          · obtain ⟨m0, hm0, he⟩ := List.mem_map.mp hb
            exact Or.inr (Or.inl ⟨hd, m0, hm0, he.symm⟩)
        · obtain ⟨m0, hm0, he⟩ := List.mem_map.mp h2
          exact Or.inr (Or.inr ⟨hst, m0, hm0, he.symm⟩)
      · rw [if_neg hst] at h
        rcases List.mem_append.mp h with ha | hb
        · exact Or.inl ha
        · obtain ⟨m0, hm0, he⟩ := List.mem_map.mp hb
          exact Or.inr (Or.inl ⟨hd, m0, hm0, he.symm⟩)
    · rw [if_neg hd] at h
      by_cases hst : sc.stripMd content ≠ content
      · rw [if_pos hst] at h
        rcases List.mem_append.mp h with ha | hb
        · exact Or.inl ha
        · obtain ⟨m0, hm0, he⟩ := List.mem_map.mp hb
          exact Or.inr (Or.inr ⟨hst, m0, hm0, he.symm⟩)
      · rw [if_neg hst] at h
        exact Or.inl h

/-- Claim C8, amended: every returned match carries its pattern's snippet
(truncated to 50 characters), severity, category, and language; matches
from the decoded variant carry `decoded=True` (and no stripped key),
matches from the stripped variant carry `markdown_stripped=True` (and no
decoded key), and matches on the original carry neither provenance key
(absent rather than present-and-false). -/
theorem computeMatches_provenance (sc : Scanner) (content : List Char) (tier : Nat)
    (dc : Bool) :
    ∀ m ∈ (computeMatches sc content tier dc).2,
      ((m.decoded = none ∧ m.markdownStripped = none ∧
          m ∈ scanAllTiers sc content tier) ∨
        (m.decoded = some true ∧ m.markdownStripped = none ∧
          fullyDecode content ≠ content ∧
          { m with decoded := none } ∈ scanAllTiers sc (fullyDecode content) tier) ∨
        (m.decoded = none ∧ m.markdownStripped = some true ∧
          sc.stripMd content ≠ content ∧
          { m with markdownStripped := none } ∈
            scanAllTiers sc (sc.stripMd content) tier)) ∧
      m.pattern.length ≤ 50 ∧
      ∃ cp, (cp ∈ sc.criticalP ∨ cp ∈ sc.highP ∨ cp ∈ sc.mediumP) ∧
        m.pattern = cp.pattern.take 50 ∧ m.severity = cp.severity ∧
        m.type = cp.category ∧ m.lang = cp.lang := by
  intro m hm
  have hagg : m ∈ aggregateMatches sc content tier dc := dedupAux_subset [] _ m hm
  rcases mem_aggregate hagg with h | ⟨hd, m0, hm0, rfl⟩ | ⟨hst, m0, hm0, rfl⟩
  · obtain ⟨cp, hcp, rfl⟩ := scanAllTiers_mem h
    refine ⟨Or.inl ⟨rfl, rfl, h⟩, ?_, cp, hcp, rfl, rfl, rfl, rfl⟩
    rw [show (mkMatchRec cp).pattern = cp.pattern.take 50 from rfl, List.length_take]
    exact Nat.min_le_left _ _
  · obtain ⟨cp, hcp, rfl⟩ := scanAllTiers_mem hm0
    refine ⟨Or.inr (Or.inl ⟨rfl, rfl, hd, hm0⟩), ?_, cp, hcp, rfl, rfl, rfl, rfl⟩
    rw [show ({ mkMatchRec cp with decoded := some true } : MatchRec).pattern =
      cp.pattern.take 50 from rfl, List.length_take]
    exact Nat.min_le_left _ _
  · obtain ⟨cp, hcp, rfl⟩ := scanAllTiers_mem hm0
    refine ⟨Or.inr (Or.inr ⟨rfl, rfl, hst, hm0⟩), ?_, cp, hcp, rfl, rfl, rfl, rfl⟩
    rw [show ({ mkMatchRec cp with markdownStripped := some true } : MatchRec).pattern =
      cp.pattern.take 50 from rfl, List.length_take]
    exact Nat.min_le_left _ _

/-- Witness for the amended C8 on a concrete original-variant match:
its provenance keys are absent and it indeed stems from the original
content's scan. -/
theorem computeMatches_provenance_witness :
    ((demoCritMatch.decoded = none ∧ demoCritMatch.markdownStripped = none ∧
        demoCritMatch ∈ scanAllTiers demoScanner "password".data 0) ∨
      (demoCritMatch.decoded = some true ∧ demoCritMatch.markdownStripped = none ∧
        fullyDecode "password".data ≠ "password".data ∧
        { demoCritMatch with decoded := none } ∈
          scanAllTiers demoScanner (fullyDecode "password".data) 0) ∨
      (demoCritMatch.decoded = none ∧ demoCritMatch.markdownStripped = some true ∧
        demoScanner.stripMd "password".data ≠ "password".data ∧
        { demoCritMatch with markdownStripped := none } ∈
          scanAllTiers demoScanner (demoScanner.stripMd "password".data) 0)) ∧
    demoCritMatch.pattern.length ≤ 50 :=
  ⟨(computeMatches_provenance demoScanner "password".data 0 false demoCritMatch
      (by decide)).1,
   (computeMatches_provenance demoScanner "password".data 0 false demoCritMatch
      (by decide)).2.1⟩

/-- Counterexample to C8 as stated: a match on the original (untouched)
content has no `decoded` / `markdown_stripped` keys at all (`none`), so
it is not the case that every match carries both Booleans with value
false. -/
theorem scan_original_match_lacks_flags :
    (computeMatches demoScanner "show the password".data 1 true).2.map
        (fun m => (m.decoded, m.markdownStripped)) = [(none, none)] ∧
    (computeMatches demoScanner "show the password".data 1 true).2.all
        (fun m => m.decoded == some false && m.markdownStripped == some false) = false := by
  decide
